import Mathlib

/-!
Verification of the fake-api-gateway-lambda core against its specification.

The JavaScript sources (src/index.js, src/child-process-worker.js) are shallowly
embedded below.  JavaScript strings are modelled as `List Char`; JavaScript
values crossing dynamic boundaries (IPC messages, lambda results) are modelled
by the inductive `JSVal`; JavaScript objects are modelled as insertion-ordered
association lists, matching JS property-enumeration order.
-/

namespace FakeApiGatewayLambda

/-- JavaScript strings, modelled as lists of characters. -/
abbrev Str := List Char

/-- Literal helper: a Lean string literal viewed as a JS string. -/
def lit (s : String) : Str := s.toList

/-! ## Path router (src/index.js, matchRoute, lines 519-542) -/

/-- One entry of `this.functions`: only the `path` field is consulted by the
router; `entry` is carried along as in the FunctionInfo of the source. -/
structure FunctionInfo where
  path : Str
  entry : Str
deriving DecidableEq, Repr

/-- JS `String.prototype.lastIndexOf(c)`: index of the last occurrence of the
character `c`, or -1 when absent. -/
def lastIndexOf (s : Str) (c : Char) : Int :=
  match s.reverse.findIdx? (fun x => x == c) with
  | some j => ((s.length - 1 - j : Nat) : Int)
  | none => -1

/-- JS `String.prototype.slice(0, e)`: a negative `e` counts from the end of
the string (clamped at 0), a non-negative `e` is clamped at the length. -/
def jsSliceTo (s : Str) (e : Int) : Str :=
  let n : Int := (s.length : Int)
  let e2 : Int := if e < 0 then max (n + e) 0 else min e n
  s.take e2.toNat

/-- The predicate passed to `functions.find` inside matchRoute
(src/index.js lines 521-541): a route is a pattern when it ends in the proxy
marker; a non-pattern matches by string equality, a pattern matches when the
pathname strictly extends the literal text before the last opening brace. -/
def routeMatches (fn : FunctionInfo) (pathname : Str) : Bool :=
  let route := fn.path
  let isPattern := (lit "+\x7d").isSuffixOf route
  if !isPattern && pathname == route then true
  else if isPattern then
    let braceStart := lastIndexOf route '\x7b'
    let exactPre := jsSliceTo route braceStart
    exactPre.isPrefixOf pathname && pathname != exactPre
  else false

/-- matchRoute (src/index.js lines 519-542): first registration whose pattern
matches, scanning in registration order. -/
def matchRoute (functions : List FunctionInfo) (pathname : Str) : Option FunctionInfo :=
  functions.find? (fun fn => routeMatches fn pathname)

/-- The matching rule exactly as the specification words it: a pattern is
either an exact literal (matches iff the pathname equals it) or a
prefix-plus-wildcard pattern ending in the proxy marker (matches iff the
pathname starts with the literal text before the wildcard and differs from
it). Stated independently of `routeMatches` for the refinement proof of C1. -/
def specPatternMatches (route pathname : Str) : Bool :=
  if (lit "+\x7d").isSuffixOf route then
    let pre := jsSliceTo route (lastIndexOf route '\x7b')
    pre.isPrefixOf pathname && pathname != pre
  else pathname == route

/-! ## Dynamic JavaScript values crossing the process / result boundary -/

/-- JavaScript values as far as the embedded code inspects them.  Objects are
insertion-ordered field lists; numbers are modelled as integers (no claim
depends on non-integral or NaN arithmetic). -/
inductive JSVal where
  | vnull
  | vundefined
  | vbool (b : Bool)
  | vnum (n : Int)
  | vstr (s : Str)
  | varr (elems : List JSVal)
  | vobj (fields : List (Str × JSVal))

/-- The result of the JS `typeof` operator (`typeof null` is "object", and
arrays are objects). `function` and `symbol` never occur in the model. -/
inductive JSType where
  | object
  | undefined
  | boolean
  | number
  | string
deriving DecidableEq, Repr

def typeOf : JSVal → JSType
  | .vnull => .object
  | .vundefined => .undefined
  | .vbool _ => .boolean
  | .vnum _ => .number
  | .vstr _ => .string
  | .varr _ => .object
  | .vobj _ => .object

/-- JS truthiness: null, undefined, false, 0 and "" are falsy; every object
(arrays included) is truthy. -/
def truthy : JSVal → Bool
  | .vnull => false
  | .vundefined => false
  | .vbool b => b
  | .vnum n => n != 0
  | .vstr s => !s.isEmpty
  | .varr _ => true
  | .vobj _ => true

def isNullJS : JSVal → Bool
  | .vnull => true
  | _ => false

/-- JS strict equality of a value against a string literal. -/
def strictEqStr (v : JSVal) (s : Str) : Bool :=
  match v with
  | .vstr t => t == s
  | _ => false

/-- First binding of a key in an insertion-ordered association list. -/
def recGet {α : Type} : List (Str × α) → Str → Option α
  | [], _ => none
  | p :: rest, k => if p.1 = k then some p.2 else recGet rest k

/-- JS property assignment on an object record: overwrite in place when the
key exists, append otherwise. -/
def recSet {α : Type} : List (Str × α) → Str → α → List (Str × α)
  | [], k, v => [(k, v)]
  | p :: rest, k, v => if p.1 = k then (k, v) :: rest else p :: recSet rest k v

/-- JS property read `v[k]`: `undefined` for a missing field.  Arrays and
strings expose `length` and their canonical index properties (JS canonical
numeric keys carry no leading zeros, which `Nat.toDigits` matches), so the
keys enumerated by `Object.keys` read back the elements.  Property reads on
the remaining primitives yield `undefined`; a read on null itself throws in
JS, but every embedded read is guarded by a typeof check or by an earlier
throw on the same value. -/
def getField (v : JSVal) (k : Str) : JSVal :=
  match v with
  | .vobj fields => (recGet fields k).getD .vundefined
  | .varr elems =>
    if k = lit "length" then JSVal.vnum elems.length
    else (((List.range elems.length).find? (fun i => Nat.toDigits 10 i == k)).bind
            (fun i => elems.get? i)).getD JSVal.vundefined
  | .vstr s =>
    if k = lit "length" then JSVal.vnum s.length
    else (((List.range s.length).find? (fun i => Nat.toDigits 10 i == k)).bind
            (fun i => (s.get? i).map (fun c => JSVal.vstr [c]))).getD JSVal.vundefined
  | _ => .vundefined

def isUndefinedJS : JSVal → Bool
  | .vundefined => true
  | _ => false

/-- JS `Object.keys`: throws a TypeError on null and undefined (modelled as
`none`); arrays and strings enumerate their index names; other primitives wrap
to key-less objects. -/
def objectKeys : JSVal → Option (List Str)
  | .vnull => none
  | .vundefined => none
  | .vobj fields => some (fields.map Prod.fst)
  | .varr elems => some ((List.range elems.length).map (fun i => Nat.toDigits 10 i))
  | .vstr s => some ((List.range s.length).map (fun i => Nat.toDigits 10 i))
  | _ => some []

/-! ## checkResult (src/child-process-worker.js, lines 146-171) -/

/-- checkResult: the shape contract applied to the worker-provided result. -/
def checkResult (v : JSVal) : Bool :=
  if typeOf v ≠ JSType.object ∨ truthy v = false then false
  else if typeOf (getField v (lit "isBase64Encoded")) ≠ JSType.boolean then false
  else if typeOf (getField v (lit "statusCode")) ≠ JSType.number then false
  else if typeOf (getField v (lit "headers")) ≠ JSType.object then false
  else if truthy (getField v (lit "multiValueHeaders")) = true ∧
          typeOf (getField v (lit "multiValueHeaders")) ≠ JSType.object then false
  else if typeOf (getField v (lit "body")) ≠ JSType.string then false
  else true

/-! ## handleLambdaResult (src/index.js, lines 267-296) -/

/-- The serialized Forbidden body, `JSON.stringify` of the object whose
single field `message` holds the string Forbidden. -/
def forbiddenJson : Str := lit "\x7b\"message\":\"Forbidden\"\x7d"

/-- The observable response written through `res`: final status code, the
headers set via `res.setHeader`, and the value passed to `res.end`. -/
structure HttpResponse where
  status : JSVal
  headers : List (Str × JSVal)
  body : JSVal

/-- A character of a valid HTTP header name, per the token rule node http
enforces in validateHeaderName: letters, digits, and the punctuation
! # $ % & apostrophe * + - . ^ _ backquote | ~ (listed by character code). -/
def validHeaderNameChar (c : Char) : Bool :=
  let n := c.toNat
  decide ((97 ≤ n ∧ n ≤ 122) ∨ (65 ≤ n ∧ n ≤ 90) ∨ (48 ≤ n ∧ n ≤ 57) ∨
    n = 33 ∨ (35 ≤ n ∧ n ≤ 39) ∨ n = 42 ∨ n = 43 ∨ n = 45 ∨ n = 46 ∨
    n = 94 ∨ n = 95 ∨ n = 96 ∨ n = 124 ∨ n = 126)

/-- validateHeaderName: a header name must be a non-empty HTTP token,
otherwise setHeader throws ERR_INVALID_HTTP_TOKEN. -/
def validHeaderName (s : Str) : Bool :=
  !s.isEmpty && s.all validHeaderNameChar

/-- A character permitted in a header value by checkInvalidHeaderChar: tab,
the printable ASCII range 32-126, and the high range 128-255; anything else
(control characters such as newline included) makes setHeader throw
ERR_INVALID_CHAR. -/
def validHeaderValueChar (c : Char) : Bool :=
  let n := c.toNat
  decide (n = 9 ∨ (32 ≤ n ∧ n ≤ 126) ∨ (128 ≤ n ∧ n ≤ 255))

/-- JS decimal rendering of an integer. -/
def intToStr (n : Int) : Str :=
  if n < 0 then '-' :: Nat.toDigits 10 n.natAbs else Nat.toDigits 10 n.toNat

/-- Concatenation with the comma separator of `Array.prototype.join`. -/
def joinCommas : List Str → Str
  | [] => []
  | [s] => s
  | s :: rest => s ++ (lit ",") ++ joinCommas rest

mutual

/-- The JS ToString coercion applied by the header-value check: strings
as-is, numbers in decimal, booleans and null by name, arrays element-wise
joined with commas (null and undefined elements joining as empty, per
`Array.prototype.join`), plain objects as their default tag. -/
def jsToString : JSVal → Str
  | .vnull => lit "null"
  | .vundefined => lit "undefined"
  | .vbool b => if b then lit "true" else lit "false"
  | .vnum n => intToStr n
  | .vstr s => s
  | .varr elems => joinCommas (jsToStringElems elems)
  | .vobj _ => lit "[object Object]"

def jsToStringElems : List JSVal → List Str
  | [] => []
  | JSVal.vnull :: xs => [] :: jsToStringElems xs
  | JSVal.vundefined :: xs => [] :: jsToStringElems xs
  | x :: xs => jsToString x :: jsToStringElems xs

end

/-- `res.setHeader(k, v)` as node http implements it: validateHeaderName
rejects a name that is not a non-empty token, validateHeaderValue rejects an
undefined value and a value whose string form carries a forbidden character;
`none` models the thrown error.  A valid pair overwrites an existing header
of the same name or appends (case-insensitivity of names is elided; no claim
depends on it). -/
def setHeaderModel (hs : List (Str × JSVal)) (k : Str) (v : JSVal) :
    Option (List (Str × JSVal)) :=
  if validHeaderName k = false then none
  else if isUndefinedJS v = true then none
  else if (jsToString v).all validHeaderValueChar = false then none
  else some (recSet hs k v)

/-- One header pass: `for (const key of Object.keys(obj))
res.setHeader(key, obj[key])`, each call subject to the setHeader
validation. -/
def setAllHeaders (init : List (Str × JSVal)) (obj : JSVal) (keys : List Str) :
    Option (List (Str × JSVal)) :=
  keys.foldlM (fun hs k => setHeaderModel hs k (getField obj k)) init

/-- The two header passes of handleLambdaResult (src/index.js lines 281-288):
single-valued headers first, then, when the multi-valued record is truthy,
the multi-valued headers on top.  `none` models a throw: a TypeError from
Object.keys on null, or a setHeader validation error. -/
def resultHeaders (result : JSVal) : Option (List (Str × JSVal)) :=
  match objectKeys (getField result (lit "headers")) with
  | none => none
  | some hkeys =>
    match setAllHeaders [] (getField result (lit "headers")) hkeys with
    | none => none
    | some hdrs1 =>
      if truthy (getField result (lit "multiValueHeaders")) then
        match objectKeys (getField result (lit "multiValueHeaders")) with
        | none => none
        | some mkeys =>
          setAllHeaders hdrs1 (getField result (lit "multiValueHeaders")) mkeys
      else some hdrs1

/-- Specification-side: one value accepted by a setHeader call. -/
def headerValueOk (v : JSVal) : Bool :=
  !isUndefinedJS v && (jsToString v).all validHeaderValueChar

/-- Specification-side: every setHeader call of one header pass succeeds. -/
def headerPassOk (obj : JSVal) (keys : List Str) : Bool :=
  keys.all (fun k => validHeaderName k && headerValueOk (getField obj k))

/-- Specification-side: the header-application step of handleLambdaResult
runs to completion — the headers record yields keys (is not null) and both
passes pass validation. -/
def headersApplicable (result : JSVal) : Bool :=
  match objectKeys (getField result (lit "headers")) with
  | none => false
  | some hkeys =>
    headerPassOk (getField result (lit "headers")) hkeys &&
    (if truthy (getField result (lit "multiValueHeaders")) then
      match objectKeys (getField result (lit "multiValueHeaders")) with
      | none => false
      | some mkeys => headerPassOk (getField result (lit "multiValueHeaders")) mkeys
     else true)

/-- The response-writing part of handleLambdaResult (src/index.js lines
278-295): status from the result, both header passes, then the base64
override.  `none` models a thrown TypeError.  The source JSON-stringifies the
fixed Forbidden body; the constant is kept as the resulting string. -/
def applyLambdaResult (result : JSVal) : Option HttpResponse :=
  match resultHeaders result with
  | none => none
  | some hdrs2 =>
    if truthy (getField result (lit "isBase64Encoded")) then
      some ⟨JSVal.vnum 400, hdrs2, JSVal.vstr forbiddenJson⟩
    else
      some ⟨getField result (lit "statusCode"), hdrs2, getField result (lit "body")⟩

/-- handleLambdaResult (src/index.js lines 267-296): the pending-request map
is modelled by its key set (a list of correlation ids, unique by the cuuid
contract); a missing entry throws, a present entry is deleted and the
response is written.  The inner `Option HttpResponse` is `none` when the
response-writing step itself throws. -/
def handleLambdaResult (pending : List Str) (id : Str) (result : JSVal) :
    Except Str (List Str × Option HttpResponse) :=
  if id ∈ pending then
    Except.ok (pending.erase id, applyLambdaResult result)
  else
    Except.error (lit "response without request: should never happen")

/-! ## The IPC exchange (src/child-process-worker.js, request, lines 22-134) -/

/-- The object passed to `proc.send` (src/child-process-worker.js lines
127-131). -/
def sentMessage (id : Str) (eventObject : JSVal) : JSVal :=
  JSVal.vobj [(lit "message", JSVal.vstr (lit "event")),
              (lit "id", JSVal.vstr id),
              (lit "eventObject", eventObject)]

/-- The message-event handler registered with `proc.once` (src/child-process-worker.js lines
69-105): every malformed message throws; a well-formed one resolves the
invocation with the result object (the END/REPORT log lines and the
subsequent `proc.kill(0)` are elided here). -/
def handleWorkerMessage (msg : JSVal) : Except Str JSVal :=
  if typeOf msg ≠ JSType.object ∨ isNullJS msg = true then
    Except.error (lit "bad data type from child process")
  else if !strictEqStr (getField msg (lit "message")) (lit "result") then
    Except.error (lit "incorrect type field from child process")
  else if typeOf (getField msg (lit "id")) ≠ JSType.string then
    Except.error (lit "missing id from child process")
  else if checkResult (getField msg (lit "result")) = false then
    Except.error (lit "missing result from child process")
  else
    Except.ok (getField msg (lit "result"))

/-! ## Header and query-string flattening (src/index.js, lines 433-504)

In node, `req.rawHeaders` is an even-length flat list alternating names and
values; the stride-2 loops of the source are modelled over the corresponding
list of (name, value) pairs. -/

/-- The JS `key in out` test on an object record. -/
def recHas {α : Type} (r : List (Str × α)) (k : Str) : Bool :=
  r.any (fun p => p.1 == k)

/-- The first loop of flattenHeaders (src/index.js lines 490-499): keep the
first binding of a fresh name, record every repeated name in deleteList. -/
def flattenLoop : List (Str × Str) → List (Str × Str) → List Str →
    List (Str × Str) × List Str
  | [], out, del => (out, del)
  | (k, v) :: rest, out, del =>
    if recHas out k then flattenLoop rest out (del ++ [k])
    else flattenLoop rest (out ++ [(k, v)]) del

/-- JS `delete out[key]`. -/
def recDelete {α : Type} (r : List (Str × α)) (k : Str) : List (Str × α) :=
  r.filter (fun p => p.1 != k)

/-- flattenHeaders (src/index.js lines 485-504): build out and deleteList,
then delete every name recorded in deleteList. -/
def flattenHeaders (h : List (Str × Str)) : List (Str × Str) :=
  let p := flattenLoop h [] []
  p.2.foldl recDelete p.1

/-- `out[headerName].push(headerValue)` on the record. -/
def recPush (r : List (Str × List Str)) (k : Str) (v : Str) :
    List (Str × List Str) :=
  r.map (fun p => if p.1 = k then (p.1, p.2 ++ [v]) else p)

/-- The loop of multiValueHeaders (src/index.js lines 468-477). -/
def mvhLoop : List (Str × Str) → List (Str × List Str) → List (Str × List Str)
  | [], out => out
  | (k, v) :: rest, out =>
    if recHas out k then mvhLoop rest (recPush out k v)
    else mvhLoop rest (out ++ [(k, [v])])

/-- multiValueHeaders (src/index.js lines 465-479). -/
def multiValueHeaders (h : List (Str × Str)) : List (Str × List Str) :=
  mvhLoop h []

/-- A value of the parsed query-string object of node: a plain string, or an array
of strings when the key was repeated in the query (arrays are non-empty as
produced by the parser). -/
inductive QueryVal where
  | qstr (s : Str)
  | qarr (vs : List Str)
deriving DecidableEq

/-- JS `v[v.length - 1]` on an array of strings (the parser never produces an
empty array, so the default is unreachable). -/
def jsLast (vs : List Str) : Str := vs.getLastD []

/-- singleValueQueryString (src/index.js lines 433-441): iterate the parsed
query object (whose keys are unique) and keep the string, or the last element
of an array value. -/
def singleValueQueryString : List (Str × QueryVal) → List (Str × Str)
  | [] => []
  | (k, .qstr s) :: rest => (k, s) :: singleValueQueryString rest
  | (k, .qarr vs) :: rest => (k, jsLast vs) :: singleValueQueryString rest

/-- multiValueObject (src/index.js lines 447-459): wrap a string into a
singleton array, keep arrays as-is. -/
def multiValueObject : List (Str × QueryVal) → List (Str × List Str)
  | [] => []
  | (k, .qstr s) :: rest => (k, [s]) :: multiValueObject rest
  | (k, .qarr vs) :: rest => (k, vs) :: multiValueObject rest

/-- Specification-side helper: all values carried by a header name, in order
of occurrence. -/
def headerValues (h : List (Str × Str)) (k : Str) : List Str :=
  h.filterMap (fun p => if p.1 = k then some p.2 else none)

/-! ## Worker crash translation (src/child-process-worker.js lines 107-121,
src/index.js lines 401-416) -/

/-- JS `String.prototype.split(c)` for a single-character separator: empty
segments are kept and the empty string splits to `[""]`. -/
def jsSplitChar (c : Char) : Str → List Str
  | [] => [[]]
  | x :: rest =>
    if x = c then [] :: jsSplitChar c rest
    else
      match jsSplitChar c rest with
      | [] => [[x]]
      | seg :: segs => (x :: seg) :: segs

/-- The rejection value of the exit handler
(src/child-process-worker.js line 118):
an object holding the fixed Internal Server Error message and the raw
captured stderr under the field `error`. -/
def crashPayload (capturedStderr : Str) : JSVal :=
  JSVal.vobj [(lit "message", JSVal.vstr (lit "Internal Server Error")),
              (lit "error", JSVal.vstr capturedStderr)]

/-- The exit-event handler registered with `proc.once` (src/child-process-worker.js lines
107-121): on a non-zero exit code the invocation is rejected with the crash
payload built from the first captured stderr chunk (the lambdaError line
written to the log sink is elided). -/
def workerExitReject (code : Int) (capturedStderr : Str) : Option JSVal :=
  if code ≠ 0 then some (crashPayload capturedStderr) else none

/-- The split of the `error` field of `err` on newlines, as a JS value; a non-string `error` field would
throw in the source, and never occurs on the crash path. -/
def jsSplitErr (v : JSVal) : JSVal :=
  match v with
  | .vstr s => JSVal.varr ((jsSplitChar '\n' s).map JSVal.vstr)
  | _ => JSVal.vundefined

/-- The `.catch` handler of doDispatch (src/index.js lines 406-415): the 500
result handed to handleLambdaResult.  The source serializes the body with
`JSON.stringify`; the structured value is kept (serialization is injective
on it). -/
def dispatchCatchResult (err : JSVal) : JSVal :=
  JSVal.vobj [(lit "statusCode", JSVal.vnum 500),
              (lit "headers", JSVal.vobj []),
              (lit "body", JSVal.vobj [
                 (lit "message", getField err (lit "message")),
                 (lit "stack", jsSplitErr (getField err (lit "error")))])]

/-! ## dispatch (src/index.js, lines 221-238) -/

/-- The `pathname` of `new URL(eventObject.path, base)` for the
path-plus-query strings the gateway feeds it: the pathname is the part before
the query or fragment (WHATWG percent-normalization is elided; no claim
depends on it). -/
def urlPathname (path : Str) : Str :=
  path.takeWhile (fun c => !(c == '?') && !(c == '#'))

/-- The literal object resolved on a routing miss (src/index.js lines
227-233). -/
def forbidden403Result : JSVal :=
  JSVal.vobj [(lit "isBase64Encoded", JSVal.vbool false),
              (lit "statusCode", JSVal.vnum 403),
              (lit "headers", JSVal.vobj []),
              (lit "body", JSVal.vstr forbiddenJson),
              (lit "multiValueHeaders", JSVal.vobj [])]

/-- Outcome of dispatch: either the invocation is forwarded to the matched
ChildProcessWorker of the matched function (`worker.request`, which is the only place a
worker process is ever spawned), or a result is resolved immediately with no
worker involved. -/
inductive DispatchOutcome where
  | forwarded (fn : FunctionInfo)
  | resolved (result : JSVal)

/-- dispatch (src/index.js lines 221-238). -/
def dispatch (functions : List FunctionInfo) (path : Str) : DispatchOutcome :=
  match matchRoute functions (urlPathname path) with
  | some fn => .forwarded fn
  | none => .resolved forbidden403Result

/-! ## Shutdown (src/index.js lines 240-252,
src/child-process-worker.js lines 136-139) -/

/-- An OS process backing one invocation. -/
structure WorkerProc where
  running : Bool
deriving DecidableEq, Repr

/-- Node `ChildProcess.kill(signal)` semantics: signal 0 only tests for the
existence of the process and terminates nothing; a real signal terminates. -/
def procKill (p : WorkerProc) (signal : Nat) : WorkerProc :=
  if signal = 0 then p else { p with running := false }

/-- The `this.procs` tracking set of one ChildProcessWorker. -/
structure ChildProcessWorkerState where
  procs : List WorkerProc
deriving DecidableEq, Repr

/-- ChildProcessWorker.close (src/child-process-worker.js lines 136-139):
`this.procs.forEach(v => v.kill(0)); this.procs = []`.  Returns the new
supervisor state and the OS processes as they are after receiving the
signal. -/
def closeChildWorker (w : ChildProcessWorkerState) :
    ChildProcessWorkerState × List WorkerProc :=
  (⟨[]⟩, w.procs.map (fun p => procKill p 0))

/-- The gateway state touched by close: the two listeners and the per-function
supervisors. -/
structure GatewayState where
  httpOpen : Bool
  httpsOpen : Bool
  workers : List ChildProcessWorkerState
deriving DecidableEq, Repr

/-- FakeApiGatewayLambda.close (src/index.js lines 240-252): close both
servers and close the worker of every function; returns the new gateway state and
the previously tracked OS processes as they are once close has completed. -/
def gatewayClose (g : GatewayState) : GatewayState × List WorkerProc :=
  ({ httpOpen := false, httpsOpen := false,
     workers := g.workers.map (fun w => (closeChildWorker w).1) },
   (g.workers.map (fun w => (closeChildWorker w).2)).flatten)

/-! ## Construction and bootstrap (src/index.js lines 88-100, 163-167,
197-211) -/

/-- addWorker (src/index.js lines 197-211) at the level of the function
table: the state is the table paired with the count of ChildProcessWorker
instances constructed so far; addWorker constructs a fresh instance (numbered
by the counter) and pushes the function onto the table. -/
def addWorkerModel (st : List (Str × Nat) × Nat) (path : Str) :
    List (Str × Nat) × Nat :=
  (st.1 ++ [(path, st.2)], st.2 + 1)

/-- The constructor (src/index.js lines 88-100): one addWorker per configured
route. -/
def constructorFunctions (routes : List Str) : List (Str × Nat) × Nat :=
  routes.foldl addWorkerModel ([], 0)

/-- bootstrap, line 167: `this.functions.map(fun => this.addWorker(fun))`.
`Array.prototype.map` iterates over the snapshot of the table taken when the
call starts, and every addWorker call pushes the visited function onto the
same table again (the JS objects are aliased, so the `worker` field of each function
field is also overwritten by the freshly constructed instance). -/
def bootstrapFunctions (st : List (Str × Nat) × Nat) : List (Str × Nat) × Nat :=
  st.1.foldl (fun acc f => addWorkerModel acc f.1) st

/-! ## Proof-side helpers for the header-flattening analysis -/

/-- First occurrence of every name not yet seen, in order. -/
def firstOccs : List (Str × Str) → List Str → List (Str × Str)
  | [], _ => []
  | (k, v) :: rest, seen =>
    if k ∈ seen then firstOccs rest seen
    else (k, v) :: firstOccs rest (seen ++ [k])

/-- Every occurrence of an already-seen name, in order. -/
def dupNames : List (Str × Str) → List Str → List Str
  | [], _ => []
  | (k, _) :: rest, seen =>
    if k ∈ seen then k :: dupNames rest seen
    else dupNames rest (seen ++ [k])

/-! # Theorems -/

/-! ## Helper lemmas -/

theorem routeMatches_eq_spec (fn : FunctionInfo) (p : Str) :
    routeMatches fn p = specPatternMatches fn.path p := by
  unfold routeMatches specPatternMatches
  cases h : (lit "+\x7d").isSuffixOf fn.path <;> simp [h, beq_eq_decide]

/-! ## C1: route matching -/

/-- C1: for every registration list and pathname, the router returns the
first registered function, in registration order, whose pattern matches —
where a non-wildcard pattern matches iff the pathname equals it, and a proxy
pattern (ending in the proxy marker) matches iff the pathname starts with the
literal prefix of the pattern and differs from it — and returns no function when
no pattern matches. -/
theorem matchRoute_follows_spec :
    (∀ (functions : List FunctionInfo) (pathname : Str),
      matchRoute functions pathname
        = functions.find? (fun fn => specPatternMatches fn.path pathname)) ∧
    (∀ (functions : List FunctionInfo) (pathname : Str),
      (∀ fn ∈ functions, specPatternMatches fn.path pathname = false) →
      matchRoute functions pathname = none) := by
  have base : ∀ (functions : List FunctionInfo) (pathname : Str),
      matchRoute functions pathname
        = functions.find? (fun fn => specPatternMatches fn.path pathname) := by
    intro functions pathname
    unfold matchRoute
    have : (fun fn => routeMatches fn pathname)
        = (fun fn => specPatternMatches fn.path pathname) :=
      funext (fun fn => routeMatches_eq_spec fn pathname)
    rw [this]
  refine ⟨base, ?_⟩
  intro functions pathname hnone
  rw [base]
  rw [List.find?_eq_none]
  intro fn hfn
  simp [hnone fn hfn]

/-- Witness for C1 at a concrete registration list and pathname. -/
theorem matchRoute_follows_spec_witness :
    matchRoute [⟨lit "/hello", lit "lambda.js"⟩] (lit "/nope") = none :=
  matchRoute_follows_spec.2 [⟨lit "/hello", lit "lambda.js"⟩] (lit "/nope")
    (by decide)

/-! ## C4: binary-encoding override -/

/-- C4: every result whose binary-encoding flag is true yields a written
response with status 400 and the fixed Forbidden body, regardless of the
status code and body the worker provided. -/
theorem base64_result_forces_400 :
    ∀ (result : JSVal) (r : HttpResponse),
      getField result (lit "isBase64Encoded") = JSVal.vbool true →
      applyLambdaResult result = some r →
      r.status = JSVal.vnum 400 ∧ r.body = JSVal.vstr forbiddenJson := by
  intro result r hflag happ
  unfold applyLambdaResult at happ
  cases hh : resultHeaders result with
  | none => rw [hh] at happ; exact Option.noConfusion happ
  | some hdrs =>
    rw [hh, hflag] at happ
    simp only [truthy, if_pos] at happ
    cases happ
    exact ⟨rfl, rfl⟩

/-- Witness for C4: a result claiming status 200 and body "hi" with the flag
set is written as 400/Forbidden. -/
theorem base64_result_forces_400_witness :
    getField (JSVal.vobj [(lit "isBase64Encoded", JSVal.vbool true),
        (lit "statusCode", JSVal.vnum 200),
        (lit "headers", JSVal.vobj []),
        (lit "body", JSVal.vstr (lit "hi"))]) (lit "isBase64Encoded")
      = JSVal.vbool true ∧
    applyLambdaResult (JSVal.vobj [(lit "isBase64Encoded", JSVal.vbool true),
        (lit "statusCode", JSVal.vnum 200),
        (lit "headers", JSVal.vobj []),
        (lit "body", JSVal.vstr (lit "hi"))])
      = some ⟨JSVal.vnum 400, [], JSVal.vstr forbiddenJson⟩ ∧
    (JSVal.vnum 400 = JSVal.vnum 400 ∧
     JSVal.vstr forbiddenJson = JSVal.vstr forbiddenJson) :=
  ⟨rfl, rfl,
   base64_result_forces_400
     (JSVal.vobj [(lit "isBase64Encoded", JSVal.vbool true),
        (lit "statusCode", JSVal.vnum 200),
        (lit "headers", JSVal.vobj []),
        (lit "body", JSVal.vstr (lit "hi"))])
     ⟨JSVal.vnum 400, [], JSVal.vstr forbiddenJson⟩ rfl rfl⟩

/-! ## C6: routing miss -/

/-- C6: every dispatched event whose pathname matches no registered function
resolves immediately with the 403 Forbidden result, and is never forwarded to
a worker (worker processes are only spawned on the forwarded path). -/
theorem routing_miss_403 :
    ∀ (functions : List FunctionInfo) (path : Str),
      matchRoute functions (urlPathname path) = none →
      dispatch functions path = DispatchOutcome.resolved forbidden403Result ∧
      ∀ fn, dispatch functions path ≠ DispatchOutcome.forwarded fn := by
  intro functions path h
  constructor
  · unfold dispatch; rw [h]
  · intro fn hc
    unfold dispatch at hc
    rw [h] at hc
    exact DispatchOutcome.noConfusion hc

/-- Witness for C6 at a concrete route table and path. -/
theorem routing_miss_403_witness :
    dispatch [⟨lit "/hello", lit "lambda.js"⟩] (lit "/nope")
        = DispatchOutcome.resolved forbidden403Result ∧
    ∀ fn, dispatch [⟨lit "/hello", lit "lambda.js"⟩] (lit "/nope")
        ≠ DispatchOutcome.forwarded fn :=
  routing_miss_403 [⟨lit "/hello", lit "lambda.js"⟩] (lit "/nope") (by decide)

/-! ## C7: correlation integrity -/

/-- C7: delivering a result for a correlation id with no pending entry throws
and is never silently swallowed; delivering for a pending id removes exactly
that entry, so (ids being unique) the entry is no longer pending afterwards
and can receive no second resolution. -/
theorem correlation_integrity :
    ∀ (pending : List Str) (id : Str) (result : JSVal),
      (id ∉ pending → handleLambdaResult pending id result =
          Except.error (lit "response without request: should never happen")) ∧
      (id ∈ pending → handleLambdaResult pending id result =
          Except.ok (pending.erase id, applyLambdaResult result)) ∧
      (pending.Nodup → id ∉ pending.erase id) := by
  intro pending id result
  refine ⟨?_, ?_, ?_⟩
  · intro h; unfold handleLambdaResult; rw [if_neg h]
  · intro h; unfold handleLambdaResult; rw [if_pos h]
  · intro h; exact h.not_mem_erase

/-- Witness for C7 at a concrete pending map, id and result. -/
theorem correlation_integrity_witness :
    handleLambdaResult [] (lit "a") (JSVal.vobj [])
        = Except.error (lit "response without request: should never happen") ∧
    handleLambdaResult [lit "a"] (lit "a") (JSVal.vobj [])
        = Except.ok (([lit "a"] : List Str).erase (lit "a"),
            applyLambdaResult (JSVal.vobj [])) ∧
    (lit "a") ∉ ([lit "a"] : List Str).erase (lit "a") :=
  ⟨(correlation_integrity [] (lit "a") (JSVal.vobj [])).1 (by decide),
   (correlation_integrity [lit "a"] (lit "a") (JSVal.vobj [])).2.1 (by decide),
   (correlation_integrity [lit "a"] (lit "a") (JSVal.vobj [])).2.2 (by decide)⟩

/-! ## C8: shutdown (code bug: kill with signal 0) -/

/-- C8 (code bug witness): closing a gateway with one tracked, running worker
process stops both listeners and clears the tracked set, but the previously
tracked process is still running afterwards — `close` signals it with
signal 0, which only tests for existence and terminates nothing. -/
theorem close_leaves_worker_running :
    gatewayClose ⟨true, true, [⟨[⟨true⟩]⟩]⟩
      = (⟨false, false, [⟨[]⟩]⟩, [⟨true⟩]) := rfl

/-! ## C9: supervisor uniqueness (code bug: bootstrap re-registers) -/

/-- C9 (code bug witness): for a gateway constructed with the single route
"/hello", the constructor registers the function once, and bootstrap then
re-runs addWorker over the table, leaving two table entries for the one
registered function and having constructed two ChildProcessWorker
instances. -/
theorem bootstrap_duplicates_workers :
    bootstrapFunctions (constructorFunctions [lit "/hello"])
      = ([(lit "/hello", 0), (lit "/hello", 1)], 2) := rfl

/-! ## C5: worker crash translation -/

/-- C5: a worker exiting with a non-zero code before any result rejects the
invocation with the crash payload carrying the first captured stderr chunk;
the gateway turns that rejection into an HTTP 500 whose body embeds the
payload message and the captured stderr split on newlines as the stack
lines, and removes the pending entry for the correlation id. -/
theorem worker_crash_yields_500 :
    ∀ (code : Int) (capturedStderr : Str) (pending : List Str) (id : Str),
      code ≠ 0 → id ∈ pending →
      workerExitReject code capturedStderr = some (crashPayload capturedStderr) ∧
      handleLambdaResult pending id (dispatchCatchResult (crashPayload capturedStderr))
        = Except.ok (pending.erase id, some
            ⟨JSVal.vnum 500, [],
             JSVal.vobj [(lit "message", JSVal.vstr (lit "Internal Server Error")),
                         (lit "stack", JSVal.varr
                           ((jsSplitChar '\n' capturedStderr).map JSVal.vstr))]⟩) := by
  intro code capturedStderr pending id hcode hmem
  constructor
  · unfold workerExitReject; rw [if_pos hcode]
  · unfold handleLambdaResult
    rw [if_pos hmem]
    rfl

/-- Witness for C5 at a concrete exit code, stderr chunk and pending map. -/
theorem worker_crash_yields_500_witness :
    workerExitReject 1 (lit "boom") = some (crashPayload (lit "boom")) ∧
    handleLambdaResult [lit "a"] (lit "a") (dispatchCatchResult (crashPayload (lit "boom")))
      = Except.ok (([lit "a"] : List Str).erase (lit "a"), some
          ⟨JSVal.vnum 500, [],
           JSVal.vobj [(lit "message", JSVal.vstr (lit "Internal Server Error")),
                       (lit "stack", JSVal.varr
                         ((jsSplitChar '\n' (lit "boom")).map JSVal.vstr))]⟩) :=
  worker_crash_yields_500 1 (lit "boom") [lit "a"] (lit "a") (by decide) (by decide)

/-! ## C2: IPC wire contract (corrected) -/

/-- C2 counterexample: a message carrying the field name `type` — exactly the
shape the claim states — is thrown as a protocol violation, while a message
keyed by `message` is accepted with no `memoryUsedBytes` field at all; and
the outbound message has no `type` field, its discriminant field is named
`message`. -/
theorem ipc_wire_contract_counterexample :
    handleWorkerMessage (JSVal.vobj
        [(lit "type", JSVal.vstr (lit "result")),
         (lit "id", JSVal.vstr (lit "a")),
         (lit "result", JSVal.vobj
            [(lit "isBase64Encoded", JSVal.vbool false),
             (lit "statusCode", JSVal.vnum 200),
             (lit "headers", JSVal.vobj []),
             (lit "body", JSVal.vstr (lit "hi"))]),
         (lit "memoryUsedBytes", JSVal.vnum 0)])
      = Except.error (lit "incorrect type field from child process") ∧
    handleWorkerMessage (JSVal.vobj
        [(lit "message", JSVal.vstr (lit "result")),
         (lit "id", JSVal.vstr (lit "a")),
         (lit "result", JSVal.vobj
            [(lit "isBase64Encoded", JSVal.vbool false),
             (lit "statusCode", JSVal.vnum 200),
             (lit "headers", JSVal.vobj []),
             (lit "body", JSVal.vstr (lit "hi"))])])
      = Except.ok (JSVal.vobj
            [(lit "isBase64Encoded", JSVal.vbool false),
             (lit "statusCode", JSVal.vnum 200),
             (lit "headers", JSVal.vobj []),
             (lit "body", JSVal.vstr (lit "hi"))]) ∧
    getField (sentMessage (lit "a") (JSVal.vobj [])) (lit "type")
      = JSVal.vundefined ∧
    getField (sentMessage (lit "a") (JSVal.vobj [])) (lit "message")
      = JSVal.vstr (lit "event") :=
  ⟨rfl, rfl, rfl, rfl⟩

/-- C2 amended: the outbound message has exactly the shape
`{message:"event", id, eventObject}`; an inbound message is accepted as a
result iff it is a non-null object whose `message` field is the string
"result", whose `id` is a string and whose `result` passes the shape check —
the memory field is never validated — and then the accepted value is exactly
its `result` field; every other inbound message is a thrown protocol
violation. -/
theorem ipc_wire_contract_amended :
    (∀ (id : Str) (evt : JSVal),
      getField (sentMessage id evt) (lit "message") = JSVal.vstr (lit "event") ∧
      getField (sentMessage id evt) (lit "id") = JSVal.vstr id ∧
      getField (sentMessage id evt) (lit "eventObject") = evt ∧
      objectKeys (sentMessage id evt)
        = some [lit "message", lit "id", lit "eventObject"]) ∧
    (∀ msg : JSVal,
      (∃ r, handleWorkerMessage msg = Except.ok r) ↔
        (typeOf msg = JSType.object ∧ isNullJS msg = false ∧
         strictEqStr (getField msg (lit "message")) (lit "result") = true ∧
         typeOf (getField msg (lit "id")) = JSType.string ∧
         checkResult (getField msg (lit "result")) = true)) ∧
    (∀ (msg r : JSVal), handleWorkerMessage msg = Except.ok r →
        r = getField msg (lit "result")) := by
  refine ⟨fun id evt => ⟨rfl, rfl, rfl, rfl⟩, ?_, ?_⟩
  · intro msg
    constructor
    · rintro ⟨r, hr⟩
      unfold handleWorkerMessage at hr
      split_ifs at hr with h1 h2 h3 h4
      rw [not_or] at h1
      refine ⟨not_not.mp h1.1, ?_, ?_, not_not.mp h3, ?_⟩
      · simpa using h1.2
      · simpa using h2
      · simpa using h4
    · rintro ⟨h1, h2, h3, h4, h5⟩
      refine ⟨getField msg (lit "result"), ?_⟩
      unfold handleWorkerMessage
      rw [if_neg (by simp [h1, h2]), if_neg (by simp [h3]),
          if_neg (by simp [h4]), if_neg (by simp [h5])]
  · intro msg r hr
    unfold handleWorkerMessage at hr
    split_ifs at hr
    exact (Except.ok.inj hr).symm

/-! ## C10: shape-check totality at application (corrected) -/

/-- C10 counterexample: a result with `headers: null` passes the shape check
(typeof null is "object"), yet applying it throws — Object.keys(null) is a
TypeError — so the header-application step is not total over shape-checked
results. -/
theorem checkResult_totality_counterexample :
    checkResult (JSVal.vobj
        [(lit "isBase64Encoded", JSVal.vbool false),
         (lit "statusCode", JSVal.vnum 200),
         (lit "headers", JSVal.vnull),
         (lit "body", JSVal.vstr (lit ""))]) = true ∧
    applyLambdaResult (JSVal.vobj
        [(lit "isBase64Encoded", JSVal.vbool false),
         (lit "statusCode", JSVal.vnum 200),
         (lit "headers", JSVal.vnull),
         (lit "body", JSVal.vstr (lit ""))]) = none :=
  ⟨rfl, rfl⟩

theorem setHeaderModel_eq (hs : List (Str × JSVal)) (k : Str) (v : JSVal) :
    setHeaderModel hs k v
      = if (validHeaderName k && headerValueOk v) = true
        then some (recSet hs k v) else none := by
  unfold setHeaderModel headerValueOk
  cases h1 : validHeaderName k
  · simp
  · cases h2 : isUndefinedJS v
    · cases h3 : (jsToString v).all validHeaderValueChar <;> simp [h2, h3]
    · simp [h2]

theorem setAllHeaders_isSome : ∀ (keys : List Str) (obj : JSVal)
    (init : List (Str × JSVal)),
    (setAllHeaders init obj keys).isSome = headerPassOk obj keys := by
  intro keys
  induction keys with
  | nil => intro obj init; rfl
  | cons k ks ih =>
    intro obj init
    unfold setAllHeaders at ih ⊢
    rw [List.foldlM_cons, setHeaderModel_eq]
    cases h : (validHeaderName k && headerValueOk (getField obj k)) <;>
      simp [headerPassOk, List.all_cons, h, ih obj]

theorem resultHeaders_isSome (v : JSVal) :
    (resultHeaders v).isSome = headersApplicable v := by
  unfold resultHeaders headersApplicable
  cases h1 : objectKeys (getField v (lit "headers")) with
  | none => rfl
  | some hkeys =>
    have hpass := setAllHeaders_isSome hkeys (getField v (lit "headers")) []
    cases h2 : setAllHeaders [] (getField v (lit "headers")) hkeys with
    | none =>
      rw [h2] at hpass
      simp only [Option.isSome_none] at hpass
      simp [h2, ← hpass]
    | some hdrs1 =>
      rw [h2] at hpass
      simp only [Option.isSome_some] at hpass
      by_cases ht : truthy (getField v (lit "multiValueHeaders")) = true
      · cases h3 : objectKeys (getField v (lit "multiValueHeaders")) with
        | none => simp [h2, h3, ht, ← hpass]
        | some mkeys =>
          simp [h2, h3, ht, ← hpass,
            setAllHeaders_isSome mkeys (getField v (lit "multiValueHeaders")) hdrs1]
      · simp [h2, ht, ← hpass]

/-- C10 amended: the header-application step is not total over shape-checked
results.  For every shape-checked result it runs to completion exactly when
the headers record yields keys (it is not null) and every setHeader call of
both passes receives a valid token name and a defined value free of forbidden
characters — and a header-step throw aborts the whole application.  In
particular a result with headers null, one with a header name holding a
space, and one with a header value holding a newline all pass the shape
check, yet the application step throws on each. -/
theorem checkResult_totality_amended :
    (∀ v : JSVal, checkResult v = true →
      (resultHeaders v).isSome = headersApplicable v ∧
      (resultHeaders v = none → applyLambdaResult v = none)) ∧
    (checkResult (JSVal.vobj
        [(lit "isBase64Encoded", JSVal.vbool false),
         (lit "statusCode", JSVal.vnum 200),
         (lit "headers", JSVal.vobj [(lit "a b", JSVal.vstr (lit "x"))]),
         (lit "body", JSVal.vstr (lit ""))]) = true ∧
     applyLambdaResult (JSVal.vobj
        [(lit "isBase64Encoded", JSVal.vbool false),
         (lit "statusCode", JSVal.vnum 200),
         (lit "headers", JSVal.vobj [(lit "a b", JSVal.vstr (lit "x"))]),
         (lit "body", JSVal.vstr (lit ""))]) = none) ∧
    (checkResult (JSVal.vobj
        [(lit "isBase64Encoded", JSVal.vbool false),
         (lit "statusCode", JSVal.vnum 200),
         (lit "headers", JSVal.vobj [(lit "X", JSVal.vstr (lit "a\nb"))]),
         (lit "body", JSVal.vstr (lit ""))]) = true ∧
     applyLambdaResult (JSVal.vobj
        [(lit "isBase64Encoded", JSVal.vbool false),
         (lit "statusCode", JSVal.vnum 200),
         (lit "headers", JSVal.vobj [(lit "X", JSVal.vstr (lit "a\nb"))]),
         (lit "body", JSVal.vstr (lit ""))]) = none) := by
  refine ⟨?_, ⟨rfl, rfl⟩, ⟨rfl, rfl⟩⟩
  intro v _
  refine ⟨resultHeaders_isSome v, ?_⟩
  intro h
  unfold applyLambdaResult
  rw [h]

/-- Witness for C10 (amended) at a concrete shape-checked result whose
headers pass validation: the application step completes. -/
theorem checkResult_totality_amended_witness :
    ((resultHeaders (JSVal.vobj
        [(lit "isBase64Encoded", JSVal.vbool false),
         (lit "statusCode", JSVal.vnum 200),
         (lit "headers", JSVal.vobj
            [(lit "Content-Type", JSVal.vstr (lit "text/plain"))]),
         (lit "body", JSVal.vstr (lit "hi"))])).isSome
      = headersApplicable (JSVal.vobj
        [(lit "isBase64Encoded", JSVal.vbool false),
         (lit "statusCode", JSVal.vnum 200),
         (lit "headers", JSVal.vobj
            [(lit "Content-Type", JSVal.vstr (lit "text/plain"))]),
         (lit "body", JSVal.vstr (lit "hi"))])) ∧
    (resultHeaders (JSVal.vobj
        [(lit "isBase64Encoded", JSVal.vbool false),
         (lit "statusCode", JSVal.vnum 200),
         (lit "headers", JSVal.vobj
            [(lit "Content-Type", JSVal.vstr (lit "text/plain"))]),
         (lit "body", JSVal.vstr (lit "hi"))])).isSome = true :=
  ⟨(checkResult_totality_amended.1 (JSVal.vobj
        [(lit "isBase64Encoded", JSVal.vbool false),
         (lit "statusCode", JSVal.vnum 200),
         (lit "headers", JSVal.vobj
            [(lit "Content-Type", JSVal.vstr (lit "text/plain"))]),
         (lit "body", JSVal.vstr (lit "hi"))]) rfl).1,
   rfl⟩

/-! ## C3: helper lemmas on the flattening loops -/

theorem recHas_iff {α : Type} (r : List (Str × α)) (k : Str) :
    recHas r k = true ↔ k ∈ r.map Prod.fst := by
  induction r with
  | nil => simp [recHas]
  | cons p rest ih =>
    unfold recHas at ih ⊢
    simp only [List.any_cons, Bool.or_eq_true, beq_iff_eq, List.map_cons,
      List.mem_cons, ih]
    constructor
    · rintro (h | h)
      · exact Or.inl h.symm
      · exact Or.inr h
    · rintro (h | h)
      · exact Or.inl h.symm
      · exact Or.inr h

theorem flattenLoop_eq : ∀ (h out : List (Str × Str)) (del : List Str),
    flattenLoop h out del
      = (out ++ firstOccs h (out.map Prod.fst),
         del ++ dupNames h (out.map Prod.fst)) := by
  intro h
  induction h with
  | nil => intro out del; simp [flattenLoop, firstOccs, dupNames]
  | cons p rest ih =>
    intro out del
    obtain ⟨k, v⟩ := p
    by_cases hk : k ∈ out.map Prod.fst
    · have hrec : recHas out k = true := (recHas_iff out k).mpr hk
      simp only [flattenLoop, hrec, if_true]
      rw [ih]
      simp [firstOccs, dupNames, hk]
    · have hrec : recHas out k = false :=
        Bool.eq_false_iff.mpr (fun e => hk ((recHas_iff out k).mp e))
      simp only [flattenLoop, hrec, Bool.false_eq_true, if_false]
      rw [ih]
      simp [firstOccs, dupNames, hk, List.map_append, List.append_assoc]

theorem foldl_recDelete {α : Type} : ∀ (del : List Str) (out : List (Str × α)),
    del.foldl recDelete out = out.filter (fun p => !(del.contains p.1)) := by
  intro del
  induction del with
  | nil =>
    intro out
    simp only [List.foldl_nil, List.contains_nil, Bool.not_false]
    exact (List.filter_true out).symm
  | cons k del ih =>
    intro out
    simp only [List.foldl_cons]
    rw [ih]
    unfold recDelete
    rw [List.filter_filter]
    have : (fun (p : Str × α) => !(del.contains p.1) && (p.1 != k))
        = (fun (p : Str × α) => !((k :: del).contains p.1)) := by
      funext p
      by_cases h1 : p.1 = k <;> by_cases h2 : p.1 ∈ del <;>
        simp [List.contains_cons, bne, h1, h2]
    rw [this]

theorem firstOccs_not_seen : ∀ (h : List (Str × Str)) (seen : List Str)
    (q : Str × Str), q ∈ firstOccs h seen → q.1 ∉ seen := by
  intro h
  induction h with
  | nil => intro seen q hq; simp [firstOccs] at hq
  | cons p rest ih =>
    intro seen q hq
    obtain ⟨k, v⟩ := p
    by_cases hk : k ∈ seen
    · rw [firstOccs, if_pos hk] at hq
      exact ih seen q hq
    · rw [firstOccs, if_neg hk] at hq
      rcases List.mem_cons.mp hq with rfl | hq
      · exact hk
      · intro hin
        exact (ih _ q hq) (List.mem_append_left _ hin)

theorem dupNames_mem : ∀ (h : List (Str × Str)) (seen : List Str) (k : Str),
    k ∈ seen → (k ∈ dupNames h seen ↔ k ∈ h.map Prod.fst) := by
  intro h
  induction h with
  | nil => intro seen k _; simp [dupNames]
  | cons p rest ih =>
    intro seen k hk
    obtain ⟨k0, v0⟩ := p
    by_cases h0 : k0 ∈ seen
    · rw [dupNames, if_pos h0, List.map_cons]
      by_cases hkk : k = k0
      · subst hkk; simp
      · simp only [List.mem_cons]
        rw [ih seen k hk]
    · rw [dupNames, if_neg h0, List.map_cons]
      have hkk : k ≠ k0 := fun e => h0 (e ▸ hk)
      rw [ih (seen ++ [k0]) k (List.mem_append_left _ hk)]
      simp [hkk]

theorem firstOccs_filter : ∀ (h : List (Str × Str)) (seen : List Str),
    (firstOccs h seen).filter (fun p => !((dupNames h seen).contains p.1))
      = h.filter (fun p =>
          decide (p.1 ∉ seen) && ((h.map Prod.fst).count p.1 == 1)) := by
  intro h
  induction h with
  | nil => intro seen; simp [firstOccs, dupNames]
  | cons hd rest ih =>
    intro seen
    obtain ⟨k, v⟩ := hd
    by_cases hk : k ∈ seen
    · rw [firstOccs, if_pos hk, dupNames, if_pos hk]
      have hL : (firstOccs rest seen).filter
            (fun p => !((k :: dupNames rest seen).contains p.1))
          = (firstOccs rest seen).filter
            (fun p => !((dupNames rest seen).contains p.1)) := by
        apply List.filter_congr
        intro q hq
        have hne : q.1 ≠ k := fun e => (firstOccs_not_seen rest seen q hq) (e ▸ hk)
        simp [List.contains_cons, hne]
      rw [hL, ih seen, List.map_cons, List.filter_cons]
      rw [if_neg (by simp [hk])]
      apply List.filter_congr
      intro q hq
      by_cases hqs : q.1 ∈ seen
      · simp [hqs]
      · have hne : q.1 ≠ k := fun e => hqs (e ▸ hk)
        simp [hqs, List.count_cons, Ne.symm hne]
    · rw [firstOccs, if_neg hk, dupNames, if_neg hk, List.filter_cons]
      have htail :
          rest.filter (fun p =>
            decide (p.1 ∉ seen ++ [k]) && ((rest.map Prod.fst).count p.1 == 1))
          = rest.filter (fun p =>
            decide (p.1 ∉ seen) && (((k :: rest.map Prod.fst).count p.1) == 1)) := by
        apply List.filter_congr
        intro q hq
        by_cases hqk : q.1 = k
        · have hpos : 0 < (rest.map Prod.fst).count k := by
            have hm := List.count_pos_iff.mpr (List.mem_map_of_mem Prod.fst hq)
            rwa [hqk] at hm
          simp [hqk, List.count_cons, hk]
          omega
        · simp [List.count_cons, List.mem_append, hqk, Ne.symm hqk]
      by_cases hdup : k ∈ rest.map Prod.fst
      · have hmem : k ∈ dupNames rest (seen ++ [k]) :=
          (dupNames_mem rest (seen ++ [k]) k (by simp)).mpr hdup
        rw [if_neg (by simp [hmem])]
        rw [ih (seen ++ [k]), List.map_cons, List.filter_cons]
        have hpos : 0 < (rest.map Prod.fst).count k := List.count_pos_iff.mpr hdup
        rw [if_neg (by simp [hk, List.count_cons]; omega)]
        exact htail
      · have hnmem : k ∉ dupNames rest (seen ++ [k]) :=
          fun m => hdup ((dupNames_mem rest (seen ++ [k]) k (by simp)).mp m)
        rw [if_pos (by simp [hnmem])]
        rw [ih (seen ++ [k]), List.map_cons, List.filter_cons]
        have hzero : (rest.map Prod.fst).count k = 0 :=
          List.count_eq_zero.mpr hdup
        rw [if_pos (by simp [hk, List.count_cons, hzero])]
        rw [htail]

theorem recHas_eq_isSome {α : Type} (r : List (Str × α)) (k : Str) :
    recHas r k = (recGet r k).isSome := by
  induction r with
  | nil => rfl
  | cons p rest ih =>
    unfold recHas recGet
    unfold recHas at ih
    by_cases h : p.1 = k
    · simp [List.any_cons, h]
    · simp [List.any_cons, h, ih]

theorem recGet_recPush (r : List (Str × List Str)) (k : Str) (v : Str)
    (k2 : Str) :
    recGet (recPush r k v) k2
      = (recGet r k2).map (fun vs => if k2 = k then vs ++ [v] else vs) := by
  induction r with
  | nil => rfl
  | cons p rest ih =>
    obtain ⟨a, b⟩ := p
    simp only [recPush] at ih ⊢
    rw [List.map_cons]
    by_cases h2 : a = k2
    · by_cases h1 : a = k
      · subst h2; subst h1
        simp [recGet]
      · subst h2
        simp [recGet, h1, Ne.symm h1]
    · by_cases h1 : a = k
      · subst h1
        simp [recGet, h2, ih]
      · simp [recGet, h1, h2, ih]

theorem recGet_append_single {α : Type} (r : List (Str × α)) (k : Str) (x : α)
    (k2 : Str) :
    recGet (r ++ [(k, x)]) k2
      = match recGet r k2 with
        | some vs => some vs
        | none => if k2 = k then some x else none := by
  induction r with
  | nil =>
    by_cases h : k = k2
    · subst h; simp [recGet]
    · simp [recGet, h, Ne.symm h]
  | cons p rest ih =>
    by_cases h : p.1 = k2
    · simp [recGet, h]
    · simp only [List.cons_append, recGet, if_neg h]
      exact ih

theorem mvhLoop_recGet : ∀ (h : List (Str × Str)) (out : List (Str × List Str))
    (k : Str),
    recGet (mvhLoop h out) k
      = match recGet out k with
        | some vs => some (vs ++ headerValues h k)
        | none =>
          if headerValues h k = [] then none else some (headerValues h k) := by
  intro h
  induction h with
  | nil =>
    intro out k
    cases hg : recGet out k <;> simp [mvhLoop, headerValues, hg]
  | cons p rest ih =>
    intro out k
    obtain ⟨k0, v0⟩ := p
    have hv : headerValues ((k0, v0) :: rest) k
        = if k0 = k then v0 :: headerValues rest k else headerValues rest k := by
      unfold headerValues
      rw [List.filterMap_cons]
      by_cases h : k0 = k <;> simp [h]
    by_cases hhas : recHas out k0 = true
    · have hsome : (recGet out k0).isSome := by
        rw [← recHas_eq_isSome]; exact hhas
      obtain ⟨vs0, hvs0⟩ := Option.isSome_iff_exists.mp hsome
      rw [mvhLoop, if_pos hhas]
      rw [ih (recPush out k0 v0) k, recGet_recPush]
      by_cases hk : k = k0
      · subst hk
        rw [hvs0, hv]
        simp
      · rw [hv, if_neg (Ne.symm hk)]
        cases hg : recGet out k <;> simp [hg, hk]
    · have hnone : recGet out k0 = none := by
        cases hg : recGet out k0 with
        | none => rfl
        | some vs0 =>
          exfalso
          exact hhas (by rw [recHas_eq_isSome, hg]; rfl)
      rw [mvhLoop, if_neg (by simp [hhas])]
      rw [ih (out ++ [(k0, [v0])]) k, recGet_append_single]
      by_cases hk : k = k0
      · subst hk
        rw [hnone, hv]
        simp
      · rw [hv, if_neg (Ne.symm hk)]
        cases hg : recGet out k <;> simp [hg, hk]

theorem singleValueQueryString_recGet :
    ∀ (qs : List (Str × QueryVal)) (k : Str),
    recGet (singleValueQueryString qs) k
      = (recGet qs k).map
          (fun v => match v with | .qstr s => s | .qarr vs => jsLast vs) := by
  intro qs
  induction qs with
  | nil => intro k; rfl
  | cons p rest ih =>
    intro k
    obtain ⟨k0, v0⟩ := p
    cases v0 <;>
      · unfold singleValueQueryString recGet
        by_cases h : k0 = k <;> simp [h, ih]

theorem multiValueObject_recGet :
    ∀ (qs : List (Str × QueryVal)) (k : Str),
    recGet (multiValueObject qs) k
      = (recGet qs k).map
          (fun v => match v with | .qstr s => [s] | .qarr vs => vs) := by
  intro qs
  induction qs with
  | nil => intro k; rfl
  | cons p rest ih =>
    intro k
    obtain ⟨k0, v0⟩ := p
    cases v0 <;>
      · unfold multiValueObject recGet
        by_cases h : k0 = k <;> simp [h, ih]

/-! ## C3: event flattening (corrected) -/

/-- C3 counterexample: raw headers `X: a` then `X: b` yield a single-valued
record in which "X" is absent altogether — the claimed first-occurrence value
{X: "a"} is not kept, duplicated names are deleted entirely — while the
multi-valued form does preserve both occurrences; and a repeated query key
keeps the last occurrence, not the first. -/
theorem header_flattening_counterexample :
    recGet (flattenHeaders [(lit "X", lit "a"), (lit "X", lit "b")]) (lit "X")
      = none ∧
    recGet (multiValueHeaders [(lit "X", lit "a"), (lit "X", lit "b")]) (lit "X")
      = some [lit "a", lit "b"] ∧
    singleValueQueryString [(lit "k", QueryVal.qarr [lit "1", lit "2"])]
      = [(lit "k", lit "2")] :=
  ⟨rfl, rfl, rfl⟩

/-- C3 amended: the single-valued header form keeps exactly the names that
occur once (with their value) and drops every name that occurs more than once
entirely; the multi-valued form preserves all occurrences in order; the
single-valued query form keeps the last occurrence of a repeated key and the
multi-valued query form preserves all occurrences. -/
theorem header_flattening_amended :
    (∀ h : List (Str × Str),
      flattenHeaders h
        = h.filter (fun p => (h.map Prod.fst).count p.1 == 1)) ∧
    (∀ (h : List (Str × Str)) (k : Str),
      recGet (multiValueHeaders h) k
        = if headerValues h k = [] then none else some (headerValues h k)) ∧
    (∀ (qs : List (Str × QueryVal)) (k : Str),
      recGet (singleValueQueryString qs) k
        = (recGet qs k).map
            (fun v => match v with | .qstr s => s | .qarr vs => jsLast vs)) ∧
    (∀ (qs : List (Str × QueryVal)) (k : Str),
      recGet (multiValueObject qs) k
        = (recGet qs k).map
            (fun v => match v with | .qstr s => [s] | .qarr vs => vs)) := by
  refine ⟨?_, ?_, singleValueQueryString_recGet, multiValueObject_recGet⟩
  · intro h
    unfold flattenHeaders
    rw [flattenLoop_eq h [] []]
    simp only [List.nil_append, List.map_nil]
    rw [foldl_recDelete, firstOccs_filter h []]
    apply List.filter_congr
    intro p _
    simp
  · intro h k
    unfold multiValueHeaders
    rw [mvhLoop_recGet h [] k]
    rfl

end FakeApiGatewayLambda
